import Mathlib

/-!
Verification of the `allib` dependency-injection toolkit (`allib/di.py`)
and its SQLAlchemy persistence plugin (`allib/web/plugins/sqla.py`).

The Python code is shallowly embedded:

* Python types (classes used as injection keys) are numbered: a type is a
  `Nat` index into a `Prog` environment that records, for each class, its
  reflective data (whether it defines its own initializer, the declared
  initializer parameter types, its `__di__` metadata dict, whether it
  derives from `Module`, and its bound methods), and for each provider
  function its declared parameter/return hints, its `__di__` dict, and the
  class its body instantiates.
* Python objects are `Value`s carrying an allocation identity (so that
  identity equality, `is`, is equality of `Value.id`), their class, and
  their attribute dict.
* The mutable `Injector` (its `instances` cache and `factories` registry)
  is threaded explicitly as a state `St`.  `St.log` is ghost
  instrumentation recording each provider-function invocation, used to
  state how many times a provider executed.
* `Injector.get` recurses without any cycle detection in the source, so
  the embedding uses a fuel parameter; `Err.outOfFuel` is the fuel
  artifact, all other `Err` values correspond to exceptions the Python
  code raises.
-/

namespace Allib

/-- Error kinds raised by the embedded code.  `outOfFuel` is the fuel
artifact of the embedding; `keyError` corresponds to a Python `KeyError`
(missing dict key, e.g. a missing return annotation); `notAProvider` to
the `Exception` raised by `Injector.register_provider`; `unsupported` to
the `Exception` raised by `Injector.register_module` and `inject` on
arguments they cannot handle. -/
inductive Err where
  | outOfFuel
  | keyError
  | notAProvider
  | unsupported
deriving DecidableEq, Repr

/-- Association list lookup: Python `d[k]` / `k in d` on an
insertion-ordered dict represented as a list of pairs. -/
def dlookup {α β : Type} [DecidableEq α] (k : α) : List (α × β) → Option β
  | [] => none
  | (k', v) :: rest => if k = k' then some v else dlookup k rest

/-- Association list insertion with Python dict semantics: `d[k] = v`
replaces the value in place when the key is present (keeping its
position) and appends otherwise. -/
def dinsert {α β : Type} [DecidableEq α] (k : α) (v : β) : List (α × β) → List (α × β)
  | [] => [(k, v)]
  | (k', v') :: rest => if k = k' then (k, v) :: rest else (k', v') :: dinsert k v rest

/-- The `__di__` metadata dict attached by the `provider` and `inject`
decorators.  Each field models presence/absence of the corresponding dict
key (`provides`, `singleton`, `inject`). -/
structure DiDict where
  provides : Option Nat := none
  singleton : Option Bool := none
  inject : Option (List (String × Nat)) := none
deriving DecidableEq, Repr

/-- Reflective data of one Python function (or bound method): its
annotated parameter hints in declaration order (the unannotated `self`
receiver never appears in `typing.get_type_hints`), its declared return
type if any, its `__di__` dict if any, and `constructs`, the class its
body instantiates — provider bodies in this repository build and return
one object from their keyword arguments. -/
structure FuncInfo where
  params : List (String × Nat) := []
  ret : Option Nat := none
  di : Option DiDict := none
  constructs : Nat := 0
deriving Repr

/-- `typing.get_type_hints(func)` as an ordered dict: the annotated
parameters in declaration order, then the `return` entry when a return
type is declared (a parameter cannot be named `return` in Python, so the
key is unambiguous). -/
def FuncInfo.hints (f : FuncInfo) : List (String × Nat) :=
  f.params ++ (match f.ret with | some r => [("return", r)] | none => [])

/-- Reflective data of one Python class.  `hasOwnInit` is the negation of
the source's test `cls.__init__ is object.__init__` (true when the class
or an ancestor below `object` defines `__init__`); `initParams` are the
annotated initializer parameters (excluding the unannotated `self`; a
`return` annotation on an initializer would be skipped by
`_guess_kwargs` anyway, so the embedding omits that slot here);
`methods` are its bound methods as enumerated by `inspect.getmembers`,
i.e. in attribute-name order. -/
structure ClassInfo where
  hasOwnInit : Bool := false
  initParams : List (String × Nat) := []
  di : Option DiDict := none
  extendsModule : Bool := false
  methods : List (String × Nat) := []
deriving Repr

/-- The environment: reflective data for every class index and function
index. -/
structure Prog where
  classes : Nat → ClassInfo
  funcs : Nat → FuncInfo

/-- A resolvable request: Python distinguishes classes (`inspect.isclass`)
from other callables (provider functions); both can be passed to
`Injector.get` and used as dict keys. -/
inductive Thing where
  | cls (t : Nat)
  | func (f : Nat)
deriving DecidableEq, Repr

/-- A Python object: allocation identity (`a is b` iff equal `id`), the
class it is an instance of, and its attribute dict. -/
inductive Value where
  | obj (id : Nat) (ofCls : Nat) (attrs : List (String × Value))
deriving Repr

/-- Allocation identity of an object. -/
def Value.id : Value → Nat
  | .obj i _ _ => i

/-- The class an object is an instance of. -/
def Value.ofCls : Value → Nat
  | .obj _ c _ => c

/-- The attribute dict of an object. -/
def Value.attrs : Value → List (String × Value)
  | .obj _ _ a => a

/-- Python `setattr(obj, n, v)`. -/
def setattrV (o : Value) (n : String) (v : Value) : Value :=
  .obj o.id o.ofCls (dinsert n v o.attrs)

/-- Python `getattr(obj, n, None)`-style attribute lookup. -/
def getattrV (o : Value) (n : String) : Option Value :=
  dlookup n o.attrs

/-- The state threaded through the embedded `Injector` methods:
`instances` and `factories` are the injector's two dicts, `nextId` the
allocator for object identities, and `log` the ghost record of
provider-function invocations (function index appended at each call). -/
structure St where
  nextId : Nat := 0
  instances : List (Thing × Value) := []
  factories : List (Thing × Nat) := []
  log : List Nat := []
deriving Repr

mutual

/-- `Injector.get`: return the cached instance if present; else if a
factory is registered, resolve the factory itself via `get` and cache the
result when the factory's `__di__['singleton']` is true (a missing
`singleton` key is a `KeyError`, a missing `__di__` skips caching); else
construct a class or invoke a callable with guessed keyword arguments. -/
def get (p : Prog) (fuel : Nat) (st : St) (thing : Thing) : Except Err (Value × St) :=
  match fuel with
  | 0 => .error .outOfFuel
  | fuel + 1 =>
    match dlookup thing st.instances with
    | some v => .ok (v, st)
    | none =>
      match dlookup thing st.factories with
      | some f =>
        match get p fuel st (Thing.func f) with
        | .error e => .error e
        | .ok (ret, st₁) =>
          match (p.funcs f).di with
          | none => .ok (ret, st₁)
          | some d =>
            match d.singleton with
            | none => .error .keyError
            | some b =>
              if b then .ok (ret, { st₁ with instances := dinsert thing ret st₁.instances })
              else .ok (ret, st₁)
      | none =>
        match thing with
        | .cls c => callClassInit p fuel st c
        | .func f => callFunc p fuel st f

/-- `Injector._call_class_init`: construct with no arguments when
`cls.__init__ is object.__init__`, otherwise resolve the initializer's
annotated parameters as keyword arguments; afterwards, if the class's
`__di__` has an `inject` dict, resolve and `setattr` each declared
attribute. -/
def callClassInit (p : Prog) (fuel : Nat) (st : St) (c : Nat) : Except Err (Value × St) :=
  match fuel with
  | 0 => .error .outOfFuel
  | fuel + 1 =>
    let ci := p.classes c
    let constructed : Except Err (Value × St) :=
      if ci.hasOwnInit then
        match guessKwargs p fuel st ci.initParams with
        | .error e => .error e
        | .ok (kw, st₁) => .ok (Value.obj st₁.nextId c kw, { st₁ with nextId := st₁.nextId + 1 })
      else
        .ok (Value.obj st.nextId c [], { st with nextId := st.nextId + 1 })
    match constructed with
    | .error e => .error e
    | .ok (o, st₁) =>
      match ci.di with
      | none => .ok (o, st₁)
      | some d =>
        match d.inject with
        | none => .ok (o, st₁)
        | some inj => injectProps p fuel st₁ o inj

/-- Invocation of a non-class callable in `Injector.get`:
`thing(**self._guess_kwargs(thing))`.  The body allocates one object of
the function's `constructs` class from the keyword arguments; the ghost
log records the invocation. -/
def callFunc (p : Prog) (fuel : Nat) (st : St) (f : Nat) : Except Err (Value × St) :=
  match fuel with
  | 0 => .error .outOfFuel
  | fuel + 1 =>
    match guessKwargs p fuel st (p.funcs f).hints with
    | .error e => .error e
    | .ok (kw, st₁) =>
      .ok (Value.obj st₁.nextId (p.funcs f).constructs kw,
           { st₁ with nextId := st₁.nextId + 1, log := st₁.log ++ [f] })

/-- `Injector._guess_kwargs`: walk the type hints in order, skip the
`return` slot (`if arg == 'return': continue`), and resolve each
remaining hint via `get`, collecting the results as keyword arguments. -/
def guessKwargs (p : Prog) (fuel : Nat) (st : St) (hints : List (String × Nat)) :
    Except Err (List (String × Value) × St) :=
  match fuel with
  | 0 => .error .outOfFuel
  | fuel + 1 =>
    match hints with
    | [] => .ok ([], st)
    | (n, t) :: rest =>
      if n = "return" then guessKwargs p fuel st rest
      else
        match get p fuel st (Thing.cls t) with
        | .error e => .error e
        | .ok (v, st₁) =>
          match guessKwargs p fuel st₁ rest with
          | .error e => .error e
          | .ok (kw, st₂) => .ok ((n, v) :: kw, st₂)

/-- The `__di__['inject']` loop of `_call_class_init`: for each declared
attribute, resolve its type via `get` and `setattr` it onto the new
instance, in dict order. -/
def injectProps (p : Prog) (fuel : Nat) (st : St) (o : Value) (inj : List (String × Nat)) :
    Except Err (Value × St) :=
  match fuel with
  | 0 => .error .outOfFuel
  | fuel + 1 =>
    match inj with
    | [] => .ok (o, st)
    | (n, t) :: rest =>
      match get p fuel st (Thing.cls t) with
      | .error e => .error e
      | .ok (v, st₁) => injectProps p fuel st₁ (setattrV o n v) rest

end

/-- Inner helper `_add_provider_annotations` of the `provider` decorator
(the embedding's name shortens the source's, which Lean's lexer handles
poorly).  It first takes over the function's existing `__di__` dict (or a
fresh one), then reads `typing.get_type_hints(func)['return']` — a
`KeyError` when the function declares no return type, raised before the
`provides`/`singleton` keys are written — and records the provided type
and the singleton flag. -/
def _add_provider_meta (singleton : Bool) (f : FuncInfo) : Except Err DiDict :=
  let di := f.di.getD {}
  match f.ret with
  | none => .error .keyError
  | some r => .ok { di with provides := some r, singleton := some singleton }

/-- The `provider` decorator: wraps the function and attaches provider
metadata.  Both the bare form `@provider` and the parameterized form
`@provider(singleton=...)` reach `_add_provider_annotations` with the
supplied flag (default false), so the embedding takes the flag as an
argument.  When the metadata step raises, the exception propagates and no
decorated function is produced. -/
def provider (singleton : Bool) (f : FuncInfo) : Except Err FuncInfo :=
  match _add_provider_meta singleton f with
  | .error e => .error e
  | .ok d => .ok { f with di := some d }

/-- `inject_object` applied to a class: ensures the target's `__di__`
dict exists, ensures its `inject` sub-dict exists
(`setdefault('inject', {})`), and writes `var_name -> var_type` into it. -/
def inject_object (c : ClassInfo) (varName : String) (varType : Nat) : ClassInfo :=
  let d := c.di.getD {}
  { c with di := some { d with inject := some (dinsert varName varType (d.inject.getD [])) } }

/-- Lookup of one entry of a class's injection-metadata mapping
(`cls.__di__['inject'][n]`, with missing dicts read as empty). -/
def lookupInject (c : ClassInfo) (n : String) : Option Nat :=
  dlookup n ((c.di.getD {}).inject.getD [])

/-- `Injector.register_provider`: raises unless `'provides'` is a key of
`getattr(func, '__di__', {})`; otherwise stores
`factories[func.__di__['provides']] = func`.  The raise precedes any
mutation, and in this pure embedding an error result carries no successor
state, so the caller's registry is untouched on failure. -/
def register_provider (p : Prog) (st : St) (f : Nat) : Except Err St :=
  match ((p.funcs f).di.getD {}).provides with
  | none => .error .notAProvider
  | some t => .ok { st with factories := dinsert (Thing.cls t) f st.factories }

/-- The filter `hasattr(func, '__di__') and func.__di__.get('provides')`
used by `register_module` (a present `provides` entry holds a type
object, which is truthy). -/
def hasProviderMeta (p : Prog) (f : Nat) : Bool :=
  match (p.funcs f).di with
  | none => false
  | some d => d.provides.isSome

/-- The registration loop of `register_module`: each bound method that
carries provider metadata is passed to `register_provider`; the rest are
skipped. -/
def registerFuncs (p : Prog) (st : St) : List (String × Nat) → Except Err St
  | [] => .ok st
  | (_, f) :: rest =>
    if hasProviderMeta p f then
      match register_provider p st f with
      | .error e => .error e
      | .ok st₁ => registerFuncs p st₁ rest
    else registerFuncs p st rest

/-- The possible arguments of `Injector.register_module`: a class object,
an instance, or some other callable (a plain function). -/
inductive ModArg where
  | cls (c : Nat)
  | inst (v : Value)
  | func (f : Nat)
deriving Repr

/-- `Injector.register_module`: a class argument is first resolved to an
instance via `get`; an argument that is then a `Module` instance has its
bound methods enumerated and its provider methods registered; anything
else raises. -/
def register_module (p : Prog) (fuel : Nat) (st : St) (arg : ModArg) : Except Err St :=
  match arg with
  | .cls c =>
    match get p fuel st (Thing.cls c) with
    | .error e => .error e
    | .ok (v, st₁) =>
      if (p.classes v.ofCls).extendsModule then
        registerFuncs p st₁ (p.classes v.ofCls).methods
      else .error .unsupported
  | .inst v =>
    if (p.classes v.ofCls).extendsModule then
      registerFuncs p st (p.classes v.ofCls).methods
    else .error .unsupported
  | .func _ => .error .unsupported

/-! The persistence plugin `allib/web/plugins/sqla.py`.  The host
framework and the SQLAlchemy library are boundary collaborators (spec
section 6), modelled from their use: an engine is determined by the
connection string and the text-encoding flag passed to `create_engine`; a
sessionmaker by its `autocommit`/`autoflush` flags and bound engine; a
scoped session by the sessionmaker it wraps; a `framework.Config` by its
key lookup. -/

/-- Modelled from use of the external library: a database engine as
produced by `sqlalchemy.create_engine(conn, convert_unicode=...)`. -/
structure Engine where
  connStr : String
  convert_unicode : Bool
deriving DecidableEq, Repr

/-- Modelled from use of the external library: a session factory as
produced by `sessionmaker(autocommit=..., autoflush=..., bind=...)`. -/
structure Sessionmaker where
  autocommit : Bool
  autoflush : Bool
  bind : Engine
deriving DecidableEq, Repr

/-- Modelled from use of the external library: a scoped session wrapping
a session factory. -/
structure ScopedSession where
  factory : Sessionmaker
deriving DecidableEq, Repr

/-- Modelled from the spec: the host framework's configuration object,
exposing a key lookup. -/
structure Config where
  get : String → String

/-- External `sqlalchemy.create_engine`. -/
def create_engine (conn : String) (convertUnicode : Bool) : Engine :=
  ⟨conn, convertUnicode⟩

/-- External `sqlalchemy.orm.session.sessionmaker`. -/
def sessionmaker (autocommit autoflush : Bool) (bind : Engine) : Sessionmaker :=
  ⟨autocommit, autoflush, bind⟩

/-- External `sqlalchemy.orm.scoped_session`. -/
def scoped_session (f : Sessionmaker) : ScopedSession :=
  ⟨f⟩

/-- Body of `SqlAlchemyPlugin.provide_db_engine`: build the engine from
the connection string at configuration key `"db"`, with text-encoding
normalization on. -/
def provide_db_engine (config : Config) : Engine :=
  create_engine (config.get "db") true

/-- Body of `SqlAlchemyPlugin.provide_session`: a scoped session over a
sessionmaker bound to the engine with `autocommit=False` and
`autoflush=False`. -/
def provide_session (engine : Engine) : ScopedSession :=
  scoped_session (sessionmaker false false engine)

/-- Type index standing for `framework.Config` in provider hints. -/
def tyConfig : Nat := 100

/-- Type index standing for `sqlalchemy.engine.Engine` in provider hints. -/
def tyEngine : Nat := 101

/-- Type index standing for `sqlalchemy.orm.session.Session` in provider
hints. -/
def tySession : Nat := 102

/-- Reflective data of the undecorated `provide_db_engine` method:
parameter `config: framework.Config`, return type
`sqlalchemy.engine.Engine`, no metadata yet. -/
def provide_db_engine_info : FuncInfo :=
  { params := [("config", tyConfig)], ret := some tyEngine }

/-- Reflective data of the undecorated `provide_session` method:
parameter `engine: sqlalchemy.engine.Engine`, return type
`sqlalchemy.orm.session.Session`, no metadata yet. -/
def provide_session_info : FuncInfo :=
  { params := [("engine", tyEngine)], ret := some tySession }

/-- A small environment exercising class construction: class 0 has no
own initializer but carries injection metadata for attribute `s` of type
1; class 2 defines `__init__(self, x: 1)` and carries the same injection
metadata; every other class is plain. -/
def fieldProg : Prog where
  classes := fun c =>
    if c = 0 then { di := some { inject := some [("s", 1)] } }
    else if c = 2 then
      { hasOwnInit := true, initParams := [("x", 1)],
        di := some { inject := some [("s", 1)] } }
    else {}
  funcs := fun _ => {}

/-- Well-formedness of a factory registry: every entry is keyed by the
provided type recorded in its own function's metadata, the only shape
`register_provider` ever stores
(`factories[func.__di__['provides']] = func`). -/
def properFacts (p : Prog) (l : List (Thing × Nat)) : Bool :=
  l.all fun kv =>
    match kv.1, (p.funcs kv.2).di with
    | Thing.cls t, some d => d.provides == some t
    | _, _ => false

/-- Well-formedness of an instance cache: every entry is keyed by a type
(the cache is only ever written under a factory key). -/
def properInsts (l : List (Thing × Value)) : Bool :=
  l.all fun kv =>
    match kv.1 with
    | Thing.cls _ => true
    | Thing.func _ => false

/-- Well-formedness of an injector state, as produced by actual use of
`register_provider`/`register_module` and `get`. -/
def properSt (p : Prog) (st : St) : Bool :=
  properFacts p st.factories && properInsts st.instances

/-- Relation between an input and an output state of one embedded
resolution step: registrations are untouched, cached instances are never
evicted, and well-formedness is preserved. -/
def StInv (p : Prog) (st st' : St) : Prop :=
  st'.factories = st.factories ∧
  (∀ k, (dlookup k st.instances).isSome → (dlookup k st'.instances).isSome) ∧
  (properSt p st = true → properSt p st' = true)

/-- Whether bound method `f` carries provider metadata whose provided
type is `t`. -/
def providesT (p : Prog) (f t : Nat) : Bool :=
  hasProviderMeta p f && (((p.funcs f).di.getD {}).provides == some t)

/-- The rightmost bound method of `ms` that carries provider metadata
with provided type `t` — the one whose registration wins when
`register_module` walks the methods in order. -/
def lastProviderFor (p : Prog) (ms : List (String × Nat)) (t : Nat) : Option Nat :=
  match ms with
  | [] => none
  | (_, f) :: rest =>
    match lastProviderFor p rest t with
    | some g => some g
    | none => if providesT p f t then some f else none

/-! The end-to-end scenario of spec section 8, property 10: a module
class (index 2) with a singleton provider `provide_a` (function index 0)
for type `A` (index 0) and a non-singleton provider `provide_b` (function
index 1) for type `B` (index 1) whose declared parameter `a` has type
`A`; `provide_a`'s body returns a fresh `A()`, `provide_b`'s body returns
`B(a)`. -/

/-- Undecorated `provide_a() -> A` of the scenario module. -/
def provideAPlain : FuncInfo :=
  { params := [], ret := some 0, constructs := 0 }

/-- Undecorated `provide_b(a: A) -> B` of the scenario module. -/
def provideBPlain : FuncInfo :=
  { params := [("a", 0)], ret := some 1, constructs := 1 }

/-- The scenario's `provide_a` after `@provider(singleton=True)`. -/
def provideA : FuncInfo :=
  (provider true provideAPlain).toOption.getD {}

/-- The scenario's `provide_b` after the bare `@provider`. -/
def provideB : FuncInfo :=
  (provider false provideBPlain).toOption.getD {}

/-- The scenario environment: class 2 is the module class (no own
initializer, derives from `Module`, bound methods `provide_a` and
`provide_b`); classes 0 and 1 are the plain types `A` and `B`. -/
def abProg : Prog where
  classes := fun c =>
    if c = 2 then
      { extendsModule := true, methods := [("provide_a", 0), ("provide_b", 1)] }
    else {}
  funcs := fun f => if f = 0 then provideA else provideB

/-! Association-list (Python dict) lemmas. -/

theorem dlookup_dinsert_self {α β : Type} [DecidableEq α] (k : α) (v : β) :
    ∀ l : List (α × β), dlookup k (dinsert k v l) = some v := by
  intro l
  induction l with
  | nil => simp [dinsert, dlookup]
  | cons kv rest ih =>
    obtain ⟨k', v'⟩ := kv
    by_cases h : k = k'
    · subst h; simp [dinsert, dlookup]
    · simp [dinsert, dlookup, h, ih]

theorem dlookup_dinsert_ne {α β : Type} [DecidableEq α] {k j : α} (v : β) (h : k ≠ j) :
    ∀ l : List (α × β), dlookup k (dinsert j v l) = dlookup k l := by
  intro l
  induction l with
  | nil => simp [dinsert, dlookup, h]
  | cons kv rest ih =>
    obtain ⟨k', v'⟩ := kv
    by_cases hj : j = k'
    · subst hj; simp [dinsert, dlookup, h]
    · simp [dinsert, dlookup, hj, ih]

theorem dlookup_mem {α β : Type} [DecidableEq α] {k : α} {v : β} :
    ∀ {l : List (α × β)}, dlookup k l = some v → (k, v) ∈ l
  | (k', v') :: rest, h => by
    by_cases hk : k = k'
    · subst hk
      simp [dlookup] at h
      subst h
      exact List.mem_cons_self _ _
    · simp [dlookup, hk] at h
      exact List.mem_cons_of_mem _ (dlookup_mem h)

theorem dlookup_dinsert_isSome {α β : Type} [DecidableEq α] (k j : α) (v : β)
    (l : List (α × β)) (h : (dlookup k l).isSome) : (dlookup k (dinsert j v l)).isSome := by
  by_cases hk : k = j
  · subst hk; simp [dlookup_dinsert_self]
  · rwa [dlookup_dinsert_ne v hk]

/-! Claims about the decorators (`provider`, `inject_object`) and
`register_provider`. -/

/-- Claim C2: applying the provider decorator to a function that declares
no return type raises the missing-key error at the reflection step's
`hints['return']` lookup, and the exception propagates before the
`provides` entry is written, so no decorated object carrying provider
metadata is produced at all. -/
theorem claim_C2 (s : Bool) (f : FuncInfo) (h : f.ret = none) :
    provider s f = Except.error Err.keyError ∧
      ∀ g : FuncInfo, provider s f ≠ Except.ok g := by
  have h1 : provider s f = Except.error Err.keyError := by
    simp [provider, _add_provider_meta, h]
  exact ⟨h1, fun g hg => by rw [h1] at hg; cases hg⟩

/-- Witness for C2: the undecorated function with no declared types. -/
theorem claim_C2_witness :
    provider false ({} : FuncInfo) = Except.error Err.keyError ∧
      ∀ g : FuncInfo, provider false ({} : FuncInfo) ≠ Except.ok g :=
  claim_C2 false {} rfl

/-- Claim C3: applying the provider decorator to a function with declared
return type `r` succeeds and attaches metadata with provided type `r` and
singleton flag equal to the supplied option (false for the bare form),
while the pre-existing metadata dict's `inject` entries are preserved
rather than replaced, and the wrapped function keeps its signature. -/
theorem claim_C3 (s : Bool) (f : FuncInfo) (r : Nat) (h : f.ret = some r) :
    ∃ g : FuncInfo, provider s f = Except.ok g ∧
      ∃ d : DiDict, g.di = some d ∧
        d.provides = some r ∧ d.singleton = some s ∧
        d.inject = (f.di.getD {}).inject ∧
        g.params = f.params ∧ g.ret = f.ret := by
  refine ⟨{ f with di := some { f.di.getD {} with provides := some r, singleton := some s } },
    ?_, _, rfl, rfl, rfl, rfl, rfl, rfl⟩
  simp [provider, _add_provider_meta, h]

/-- Witness for C3: a function with return type 7 and an existing
injection entry, decorated with `provider(singleton=True)`. -/
theorem claim_C3_witness :
    ∃ g : FuncInfo,
      provider true { ret := some 7, di := some { inject := some [("x", 3)] } } = Except.ok g ∧
      ∃ d : DiDict, g.di = some d ∧
        d.provides = some 7 ∧ d.singleton = some true ∧
        d.inject = (((some { inject := some [("x", 3)] } : Option DiDict)).getD {}).inject ∧
        g.params = ({ ret := some 7, di := some { inject := some [("x", 3)] } } : FuncInfo).params ∧
        g.ret = ({ ret := some 7, di := some { inject := some [("x", 3)] } } : FuncInfo).ret :=
  claim_C3 true { ret := some 7, di := some { inject := some [("x", 3)] } } 7 rfl

/-- Claim C4: two injection annotations with distinct attribute names
applied to the same class accumulate — the class's injection mapping ends
up containing both entries, neither removed nor overwritten. -/
theorem claim_C4 (c : ClassInfo) (n₁ n₂ : String) (t₁ t₂ : Nat) (h : n₁ ≠ n₂) :
    lookupInject (inject_object (inject_object c n₁ t₁) n₂ t₂) n₁ = some t₁ ∧
    lookupInject (inject_object (inject_object c n₁ t₁) n₂ t₂) n₂ = some t₂ := by
  have e : ∀ m, lookupInject (inject_object (inject_object c n₁ t₁) n₂ t₂) m =
      dlookup m (dinsert n₂ t₂ (dinsert n₁ t₁ ((c.di.getD {}).inject.getD []))) :=
    fun _ => rfl
  constructor
  · rw [e, dlookup_dinsert_ne _ h, dlookup_dinsert_self]
  · rw [e, dlookup_dinsert_self]

/-- Witness for C4: attribute names `"a"` and `"b"` on a bare class. -/
theorem claim_C4_witness :
    lookupInject (inject_object (inject_object {} "a" 1) "b" 2) "a" = some 1 ∧
    lookupInject (inject_object (inject_object {} "a" 1) "b" 2) "b" = some 2 :=
  claim_C4 {} "a" "b" 1 2 (by decide)

/-- Claim C10: two injection annotations with the same attribute name and
different required types applied to the same class overwrite — the later
type wins under that name, and entries under any other name are exactly
as before. -/
theorem claim_C10 (c : ClassInfo) (n : String) (t₁ t₂ : Nat) (h : t₁ ≠ t₂) :
    lookupInject (inject_object (inject_object c n t₁) n t₂) n = some t₂ ∧
    ∀ m, m ≠ n → lookupInject (inject_object (inject_object c n t₁) n t₂) m = lookupInject c m := by
  have e : ∀ m, lookupInject (inject_object (inject_object c n t₁) n t₂) m =
      dlookup m (dinsert n t₂ (dinsert n t₁ ((c.di.getD {}).inject.getD []))) :=
    fun _ => rfl
  constructor
  · rw [e, dlookup_dinsert_self]
  · intro m hm
    rw [e, dlookup_dinsert_ne _ hm, dlookup_dinsert_ne _ hm]
    rfl

/-- Witness for C10: name `"x"` bound first to type 1 and then to type 2;
the unrelated name `"y"` is unchanged. -/
theorem claim_C10_witness :
    lookupInject (inject_object (inject_object {} "x" 1) "x" 2) "x" = some 2 ∧
    ∀ m, m ≠ "x" →
      lookupInject (inject_object (inject_object {} "x" 1) "x" 2) m = lookupInject {} m :=
  claim_C10 {} "x" 1 2 (by decide)

/-- Claim C5: `register_provider` raises when the function carries no
provider metadata, producing no updated state at all (so the factory
registry is the caller's, unchanged); with provided type `t` it succeeds,
stores `t -> f` (overwriting any previous provider for `t`), and leaves
every other registry key and the instance cache untouched. -/
theorem claim_C5 (p : Prog) (st : St) (f : Nat) :
    ((((p.funcs f).di.getD {}).provides = none →
        register_provider p st f = Except.error Err.notAProvider ∧
        ∀ st' : St, register_provider p st f ≠ Except.ok st') ∧
     ∀ t, ((p.funcs f).di.getD {}).provides = some t →
       ∃ st' : St, register_provider p st f = Except.ok st' ∧
         dlookup (Thing.cls t) st'.factories = some f ∧
         (∀ k, k ≠ Thing.cls t → dlookup k st'.factories = dlookup k st.factories) ∧
         st'.instances = st.instances) := by
  constructor
  · intro h
    have h1 : register_provider p st f = Except.error Err.notAProvider := by
      simp [register_provider, h]
    exact ⟨h1, fun st' hok => by rw [h1] at hok; cases hok⟩
  · intro t ht
    refine ⟨{ st with factories := dinsert (Thing.cls t) f st.factories }, ?_, ?_, ?_, rfl⟩
    · simp [register_provider, ht]
    · exact dlookup_dinsert_self _ _ _
    · intro k hk
      exact dlookup_dinsert_ne _ hk _

/-- Witness for C5: a metadata-free function is rejected; the decorated
`provide_a` of the scenario module registers under its provided type 0. -/
theorem claim_C5_witness :
    (register_provider ⟨fun _ => {}, fun _ => {}⟩ {} 0 = Except.error Err.notAProvider ∧
      ∀ st' : St, register_provider ⟨fun _ => {}, fun _ => {}⟩ {} 0 ≠ Except.ok st') ∧
    ∃ st' : St, register_provider ⟨fun _ => {}, fun _ => provideA⟩ {} 0 = Except.ok st' ∧
      dlookup (Thing.cls 0) st'.factories = some 0 ∧
      (∀ k, k ≠ Thing.cls 0 →
        dlookup k st'.factories = dlookup k (St.factories {})) ∧
      st'.instances = St.instances {} :=
  ⟨(claim_C5 ⟨fun _ => {}, fun _ => {}⟩ {} 0).1 rfl,
   (claim_C5 ⟨fun _ => {}, fun _ => provideA⟩ {} 0).2 0 rfl⟩

/-- Claim C9: the persistence plugin's `provide_session` carries
singleton-flagged provider metadata for the session type and, given the
engine, produces a scoped session factory bound to that engine with both
auto-commit and auto-flush disabled; `provide_db_engine` is likewise
singleton-flagged for the engine type and builds the engine from the
connection string at configuration key `"db"`. -/
theorem claim_C9 :
    (∃ g : FuncInfo, provider true provide_session_info = Except.ok g ∧
        ∃ d : DiDict, g.di = some d ∧ d.provides = some tySession ∧ d.singleton = some true) ∧
    (∀ e : Engine,
        (provide_session e).factory.autocommit = false ∧
        (provide_session e).factory.autoflush = false ∧
        (provide_session e).factory.bind = e) ∧
    (∃ g : FuncInfo, provider true provide_db_engine_info = Except.ok g ∧
        ∃ d : DiDict, g.di = some d ∧ d.provides = some tyEngine ∧ d.singleton = some true) ∧
    (∀ cfg : Config, (provide_db_engine cfg).connStr = cfg.get "db") := by
  exact ⟨⟨_, rfl, _, rfl, rfl, rfl⟩, fun e => ⟨rfl, rfl, rfl⟩,
    ⟨_, rfl, _, rfl, rfl, rfl⟩, fun cfg => rfl⟩

/-- Claim C7: `get` reaching class construction.  When neither the class
nor an ancestor below `object` defines `__init__`, the instance is built
with no arguments and no argument resolution happens — even if the class
carries injection metadata, the state handed to the injection phase is
exactly the input state plus one allocation (no `get` was run, nothing
was cached or invoked); with no metadata at all the call returns the bare
fresh instance.  When the class does define `__init__`, the instance is
built from the keyword arguments produced by resolving the declared
initializer parameters via `_guess_kwargs` (which resolves each
non-`return` hint through `get`, in order, and skips the `return` slot).
In all cases injection-metadata attributes are resolved by `get` and
assigned by `setattr` one by one only after construction completed. -/
theorem claim_C7 (p : Prog) (fuel : Nat) (st : St) (c : Nat) :
    ((p.classes c).hasOwnInit = false →
      ∀ d inj, (p.classes c).di = some d → d.inject = some inj →
        callClassInit p (fuel + 1) st c =
          injectProps p fuel { st with nextId := st.nextId + 1 } (Value.obj st.nextId c []) inj) ∧
    ((p.classes c).hasOwnInit = false → (p.classes c).di = none →
      callClassInit p (fuel + 1) st c =
        Except.ok (Value.obj st.nextId c [], { st with nextId := st.nextId + 1 })) ∧
    ((p.classes c).hasOwnInit = true →
      ∀ kw st₁, guessKwargs p fuel st (p.classes c).initParams = Except.ok (kw, st₁) →
        ∀ d inj, (p.classes c).di = some d → d.inject = some inj →
          callClassInit p (fuel + 1) st c =
            injectProps p fuel { st₁ with nextId := st₁.nextId + 1 } (Value.obj st₁.nextId c kw) inj) ∧
    (∀ n t rest v s₁ kw s₂, n ≠ "return" →
        get p fuel st (Thing.cls t) = Except.ok (v, s₁) →
        guessKwargs p fuel s₁ rest = Except.ok (kw, s₂) →
        guessKwargs p (fuel + 1) st ((n, t) :: rest) = Except.ok ((n, v) :: kw, s₂)) ∧
    (∀ t rest, guessKwargs p (fuel + 1) st (("return", t) :: rest) = guessKwargs p fuel st rest) ∧
    (∀ o n t rest v s₁,
        get p fuel st (Thing.cls t) = Except.ok (v, s₁) →
        injectProps p (fuel + 1) st o ((n, t) :: rest) =
          injectProps p fuel s₁ (setattrV o n v) rest) := by
  refine ⟨?_, ?_, ?_, ?_, ?_, ?_⟩
  · intro h d inj hd hinj
    simp [callClassInit, h, hd, hinj]
  · intro h hd
    simp [callClassInit, h, hd]
  · intro h kw st₁ hkw d inj hd hinj
    simp [callClassInit, h, hkw, hd, hinj]
  · intro n t rest v s₁ kw s₂ hn hget hrest
    simp [guessKwargs, hn, hget, hrest]
  · intro t rest
    simp [guessKwargs]
  · intro o n t rest v s₁ hget
    simp [injectProps, hget]

/-- Witness for C7: a class with only injection metadata is constructed
bare and handed to the injection phase; a metadata-free class yields the
bare instance; a class whose initializer declares `x : 1` is constructed
from the resolved keyword arguments; `_guess_kwargs` resolves one hint,
skips `return`, and `injectProps` assigns one resolved attribute. -/
theorem claim_C7_witness :
    (callClassInit fieldProg 6 {} 0 =
      injectProps fieldProg 5 { nextId := 1 } (Value.obj 0 0 []) [("s", 1)]) ∧
    (callClassInit fieldProg 6 {} 3 =
      Except.ok (Value.obj 0 3 [], { nextId := 1 })) ∧
    (callClassInit fieldProg 6 {} 2 =
      injectProps fieldProg 5 { nextId := 2 }
        (Value.obj 1 2 [("x", Value.obj 0 1 [])]) [("s", 1)]) ∧
    (guessKwargs fieldProg 6 {} [("x", 1)] =
      Except.ok ([("x", Value.obj 0 1 [])], { nextId := 1 })) ∧
    (guessKwargs fieldProg 6 {} [("return", 9)] = Except.ok ([], {})) ∧
    (injectProps fieldProg 6 {} (Value.obj 7 0 []) [("s", 1)] =
      injectProps fieldProg 5 { nextId := 1 }
        (setattrV (Value.obj 7 0 []) "s" (Value.obj 0 1 [])) []) := by
  refine ⟨(claim_C7 fieldProg 5 {} 0).1 rfl _ _ rfl rfl,
    (claim_C7 fieldProg 5 {} 3).2.1 rfl rfl,
    (claim_C7 fieldProg 5 {} 2).2.2.1 rfl [("x", Value.obj 0 1 [])] { nextId := 1 } rfl _ _ rfl rfl,
    (claim_C7 fieldProg 5 {} 0).2.2.2.1 "x" 1 [] (Value.obj 0 1 []) { nextId := 1 } [] { nextId := 1 }
      (by decide) rfl rfl,
    (claim_C7 fieldProg 5 {} 0).2.2.2.2.1 9 [],
    (claim_C7 fieldProg 5 {} 0).2.2.2.2.2 (Value.obj 7 0 []) "s" 1 [] (Value.obj 0 1 [])
      { nextId := 1 } rfl⟩

/-- The registration loop of `register_module` never fails (only methods
that carry provider metadata reach `register_provider`, which accepts
them), touches neither the instance cache, the allocator nor the log, and
its effect on the factory registry is exactly: each type a provider
method provides ends bound to the last such method, every other type
keeps its previous binding. -/
theorem registerFuncs_spec (p : Prog) :
    ∀ (ms : List (String × Nat)) (st : St),
      ∃ st', registerFuncs p st ms = Except.ok st' ∧
        st'.instances = st.instances ∧ st'.log = st.log ∧ st'.nextId = st.nextId ∧
        ∀ t, dlookup (Thing.cls t) st'.factories =
          match lastProviderFor p ms t with
          | some g => some g
          | none => dlookup (Thing.cls t) st.factories := by
  intro ms
  induction ms with
  | nil => exact fun st => ⟨st, rfl, rfl, rfl, rfl, fun t => rfl⟩
  | cons nf rest ih =>
    obtain ⟨nm, f⟩ := nf
    intro st
    by_cases hm : hasProviderMeta p f
    · obtain ⟨t₀, ht₀⟩ : ∃ t₀, ((p.funcs f).di.getD {}).provides = some t₀ := by
        unfold hasProviderMeta at hm
        cases hdi : (p.funcs f).di with
        | none => rw [hdi] at hm; cases hm
        | some d =>
          rw [hdi] at hm
          simpa [hdi] using Option.isSome_iff_exists.mp hm
      have hrp : register_provider p st f =
          Except.ok { st with factories := dinsert (Thing.cls t₀) f st.factories } := by
        simp [register_provider, ht₀]
      obtain ⟨st', hok, hinst, hlog, hnid, hfac⟩ :=
        ih { st with factories := dinsert (Thing.cls t₀) f st.factories }
      refine ⟨st', ?_, hinst, hlog, hnid, ?_⟩
      · simp [registerFuncs, hm, hrp, hok]
      · intro t
        have := hfac t
        cases hrest : lastProviderFor p rest t with
        | some g => simp [lastProviderFor, hrest, this, hrest ▸ this]
        | none =>
          rw [hrest] at this
          by_cases ht : t = t₀
          · subst ht
            have hpt : providesT p f t = true := by
              simp [providesT, hm, ht₀]
            simp [lastProviderFor, hrest, hpt, this, dlookup_dinsert_self]
          · have hne : Thing.cls t ≠ Thing.cls t₀ := by
              intro hc; exact ht (Thing.cls.inj hc)
            have hpt : providesT p f t = false := by
              simp [providesT, ht₀]
              intro hmm
              exact fun hcc => ht (by omega)
            simp [lastProviderFor, hrest, hpt, this, dlookup_dinsert_ne _ hne]
    · obtain ⟨st', hok, hinst, hlog, hnid, hfac⟩ := ih st
      refine ⟨st', ?_, hinst, hlog, hnid, ?_⟩
      · simp [registerFuncs, hm, hok]
      · intro t
        have hpt : providesT p f t = false := by
          simp [providesT, hm]
        have := hfac t
        cases hrest : lastProviderFor p rest t with
        | some g => simp [lastProviderFor, hrest, hrest ▸ this]
        | none => simp [lastProviderFor, hrest, hpt, hrest ▸ this]

/-- Claim C6: `register_module` on a `Module` instance succeeds and
registers exactly those bound methods that carry provider metadata — the
factory registry afterwards binds each provided type to the last provider
method for it and leaves every other type's binding unchanged, while the
instance cache and the invocation log are untouched (methods without
provider metadata are skipped); on a class argument it first resolves an
instance via `get` and then proceeds exactly as for that instance; a
plain function, or an instance whose class does not derive from `Module`,
raises the unsupported error. -/
theorem claim_C6 (p : Prog) (fuel : Nat) (st : St) :
    (∀ v : Value, (p.classes v.ofCls).extendsModule = true →
      ∃ st', register_module p fuel st (ModArg.inst v) = Except.ok st' ∧
        st'.instances = st.instances ∧ st'.log = st.log ∧
        ∀ t, dlookup (Thing.cls t) st'.factories =
          match lastProviderFor p (p.classes v.ofCls).methods t with
          | some g => some g
          | none => dlookup (Thing.cls t) st.factories) ∧
    (∀ c v st₁, get p fuel st (Thing.cls c) = Except.ok (v, st₁) →
      register_module p fuel st (ModArg.cls c) = register_module p fuel st₁ (ModArg.inst v)) ∧
    (∀ f, register_module p fuel st (ModArg.func f) = Except.error Err.unsupported) ∧
    (∀ v : Value, (p.classes v.ofCls).extendsModule = false →
      register_module p fuel st (ModArg.inst v) = Except.error Err.unsupported) := by
  refine ⟨?_, ?_, fun f => rfl, ?_⟩
  · intro v hv
    obtain ⟨st', hok, hinst, hlog, _, hfac⟩ := registerFuncs_spec p (p.classes v.ofCls).methods st
    exact ⟨st', by simp [register_module, hv, hok], hinst, hlog, hfac⟩
  · intro c v st₁ hget
    simp [register_module, hget]
  · intro v hv
    simp [register_module, hv]

/-- Witness for C6: the scenario module instance registers its two
provider methods; resolving the module class first reduces to the
instance case; a plain function and a non-`Module` instance are
rejected. -/
theorem claim_C6_witness :
    (∃ st', register_module abProg 5 {} (ModArg.inst (Value.obj 0 2 [])) = Except.ok st' ∧
      st'.instances = St.instances {} ∧ st'.log = St.log {} ∧
      ∀ t, dlookup (Thing.cls t) st'.factories =
        match lastProviderFor abProg (abProg.classes (Value.obj 0 2 []).ofCls).methods t with
        | some g => some g
        | none => dlookup (Thing.cls t) (St.factories {})) ∧
    (register_module abProg 5 {} (ModArg.cls 2) =
      register_module abProg 5 { nextId := 1 } (ModArg.inst (Value.obj 0 2 []))) ∧
    (register_module abProg 5 {} (ModArg.func 0) = Except.error Err.unsupported) ∧
    (register_module abProg 5 {} (ModArg.inst (Value.obj 0 0 [])) = Except.error Err.unsupported) :=
  ⟨(claim_C6 abProg 5 {}).1 (Value.obj 0 2 []) rfl,
   (claim_C6 abProg 5 {}).2.1 2 (Value.obj 0 2 []) { nextId := 1 } rfl,
   (claim_C6 abProg 5 {}).2.2.1 0,
   (claim_C6 abProg 5 {}).2.2.2 (Value.obj 0 0 []) rfl⟩

/-- Claim C8: after registering the scenario module (singleton provider
for `A` = type 0, non-singleton provider for `B` = type 1 with declared
parameter `a : A`), two `get(B)` calls succeed, return two distinct `B`
instances (different identities), invoke the `B` provider twice and the
`A` provider only once, and both `B` instances hold the identical cached
`A` instance in their `a` attribute. -/
theorem claim_C8 :
    ∃ st₁ b₁ st₂ b₂ st₃,
      register_module abProg 10 {} (ModArg.cls 2) = Except.ok st₁ ∧
      get abProg 10 st₁ (Thing.cls 1) = Except.ok (b₁, st₂) ∧
      get abProg 10 st₂ (Thing.cls 1) = Except.ok (b₂, st₃) ∧
      b₁.id ≠ b₂.id ∧
      st₃.log.count 1 = 2 ∧
      st₃.log.count 0 = 1 ∧
      ∃ a₁ a₂, getattrV b₁ "a" = some a₁ ∧ getattrV b₂ "a" = some a₂ ∧
        a₁ = a₂ ∧ a₁.id = a₂.id ∧
        dlookup (Thing.cls 0) st₃.instances = some a₁ := by
  refine ⟨{ nextId := 1, factories := [(Thing.cls 0, 0), (Thing.cls 1, 1)] },
    Value.obj 2 1 [("a", Value.obj 1 0 [])],
    { nextId := 3, instances := [(Thing.cls 0, Value.obj 1 0 [])],
      factories := [(Thing.cls 0, 0), (Thing.cls 1, 1)], log := [0, 1] },
    Value.obj 3 1 [("a", Value.obj 1 0 [])],
    { nextId := 4, instances := [(Thing.cls 0, Value.obj 1 0 [])],
      factories := [(Thing.cls 0, 0), (Thing.cls 1, 1)], log := [0, 1, 1] },
    rfl, rfl, rfl, by decide, by decide, by decide,
    Value.obj 1 0 [], Value.obj 1 0 [], rfl, rfl, rfl, rfl, rfl⟩

/-! Inversion lemmas: what a successful run of each embedded operation
must look like, one interpreter layer at a time. -/

theorem callFunc_ok {p : Prog} {n : Nat} {st : St} {f : Nat} {v : Value} {st' : St}
    (h : callFunc p (n + 1) st f = Except.ok (v, st')) :
    ∃ kw st₁, guessKwargs p n st (p.funcs f).hints = Except.ok (kw, st₁) ∧
      v = Value.obj st₁.nextId (p.funcs f).constructs kw ∧
      st' = { st₁ with nextId := st₁.nextId + 1, log := st₁.log ++ [f] } := by
  simp only [callFunc] at h
  split at h
  · cases h
  · next kw st₁ heq =>
    obtain ⟨h1, h2⟩ := Prod.mk.injEq .. ▸ Except.ok.inj h
    exact ⟨kw, st₁, heq, h1.symm, h2.symm⟩

theorem guessKwargs_nil_ok {p : Prog} {n : Nat} {st : St} {kw : List (String × Value)} {st' : St}
    (h : guessKwargs p (n + 1) st [] = Except.ok (kw, st')) : kw = [] ∧ st' = st := by
  simp only [guessKwargs] at h
  obtain ⟨h1, h2⟩ := Prod.mk.injEq .. ▸ Except.ok.inj h
  exact ⟨h1.symm, h2.symm⟩

theorem guessKwargs_cons_ok {p : Prog} {n : Nat} {st : St} {nm : String} {t : Nat}
    {rest : List (String × Nat)} {kw : List (String × Value)} {st' : St}
    (h : guessKwargs p (n + 1) st ((nm, t) :: rest) = Except.ok (kw, st')) :
    (nm = "return" ∧ guessKwargs p n st rest = Except.ok (kw, st')) ∨
    (nm ≠ "return" ∧ ∃ v₁ s₁ kw₂, get p n st (Thing.cls t) = Except.ok (v₁, s₁) ∧
      guessKwargs p n s₁ rest = Except.ok (kw₂, st') ∧ kw = (nm, v₁) :: kw₂) := by
  simp only [guessKwargs] at h
  by_cases hn : nm = "return"
  · rw [if_pos hn] at h
    exact Or.inl ⟨hn, h⟩
  · rw [if_neg hn] at h
    refine Or.inr ⟨hn, ?_⟩
    split at h
    · cases h
    · next v₁ s₁ hget =>
      split at h
      · cases h
      · next kw₂ s₂ hrest =>
        obtain ⟨h1, h2⟩ := Prod.mk.injEq .. ▸ Except.ok.inj h
        exact ⟨v₁, s₁, kw₂, hget, h2 ▸ hrest, h1.symm⟩

theorem injectProps_nil_ok {p : Prog} {n : Nat} {st : St} {o : Value} {v : Value} {st' : St}
    (h : injectProps p (n + 1) st o [] = Except.ok (v, st')) : v = o ∧ st' = st := by
  simp only [injectProps] at h
  obtain ⟨h1, h2⟩ := Prod.mk.injEq .. ▸ Except.ok.inj h
  exact ⟨h1.symm, h2.symm⟩

theorem injectProps_cons_ok {p : Prog} {n : Nat} {st : St} {o : Value} {nm : String} {t : Nat}
    {rest : List (String × Nat)} {v : Value} {st' : St}
    (h : injectProps p (n + 1) st o ((nm, t) :: rest) = Except.ok (v, st')) :
    ∃ w s₁, get p n st (Thing.cls t) = Except.ok (w, s₁) ∧
      injectProps p n s₁ (setattrV o nm w) rest = Except.ok (v, st') := by
  simp only [injectProps] at h
  split at h
  · cases h
  · next w s₁ hget => exact ⟨w, s₁, hget, h⟩

theorem callClassInit_ok {p : Prog} {n : Nat} {st : St} {c : Nat} {v : Value} {st' : St}
    (h : callClassInit p (n + 1) st c = Except.ok (v, st')) :
    ∃ o st₁,
      (((p.classes c).hasOwnInit = false ∧ o = Value.obj st.nextId c [] ∧
          st₁ = { st with nextId := st.nextId + 1 }) ∨
       ((p.classes c).hasOwnInit = true ∧ ∃ kw stk,
          guessKwargs p n st (p.classes c).initParams = Except.ok (kw, stk) ∧
          o = Value.obj stk.nextId c kw ∧ st₁ = { stk with nextId := stk.nextId + 1 })) ∧
      ((((p.classes c).di = none ∨ ∃ d, (p.classes c).di = some d ∧ d.inject = none) ∧
          v = o ∧ st' = st₁) ∨
       (∃ d inj, (p.classes c).di = some d ∧ d.inject = some inj ∧
          injectProps p n st₁ o inj = Except.ok (v, st'))) := by
  simp only [callClassInit] at h
  by_cases hi : (p.classes c).hasOwnInit
  · rw [if_pos hi] at h
    cases hkw : guessKwargs p n st (p.classes c).initParams with
    | error e => rw [hkw] at h; cases h
    | ok pair =>
      obtain ⟨kw, stk⟩ := pair
      rw [hkw] at h
      dsimp only at h
      refine ⟨Value.obj stk.nextId c kw, { stk with nextId := stk.nextId + 1 },
        Or.inr ⟨hi, kw, stk, rfl, rfl, rfl⟩, ?_⟩
      split at h
      · next hdi =>
        obtain ⟨h1, h2⟩ := Prod.mk.injEq .. ▸ Except.ok.inj h
        exact Or.inl ⟨Or.inl hdi, h1.symm, h2.symm⟩
      · next d hdi =>
        split at h
        · next hinj =>
          obtain ⟨h1, h2⟩ := Prod.mk.injEq .. ▸ Except.ok.inj h
          exact Or.inl ⟨Or.inr ⟨d, hdi, hinj⟩, h1.symm, h2.symm⟩
        · next inj hinj => exact Or.inr ⟨d, inj, hdi, hinj, h⟩
  · rw [if_neg hi] at h
    dsimp only at h
    refine ⟨Value.obj st.nextId c [], { st with nextId := st.nextId + 1 },
      Or.inl ⟨Bool.not_eq_true _ ▸ hi, rfl, rfl⟩, ?_⟩
    split at h
    · next hdi =>
      obtain ⟨h1, h2⟩ := Prod.mk.injEq .. ▸ Except.ok.inj h
      exact Or.inl ⟨Or.inl hdi, h1.symm, h2.symm⟩
    · next d hdi =>
      split at h
      · next hinj =>
        obtain ⟨h1, h2⟩ := Prod.mk.injEq .. ▸ Except.ok.inj h
        exact Or.inl ⟨Or.inr ⟨d, hdi, hinj⟩, h1.symm, h2.symm⟩
      · next inj hinj => exact Or.inr ⟨d, inj, hdi, hinj, h⟩

theorem get_ok {p : Prog} {n : Nat} {st : St} {thing : Thing} {v : Value} {st' : St}
    (h : get p (n + 1) st thing = Except.ok (v, st')) :
    (dlookup thing st.instances = some v ∧ st' = st) ∨
    (dlookup thing st.instances = none ∧ ∃ f st₁,
       dlookup thing st.factories = some f ∧ get p n st (Thing.func f) = Except.ok (v, st₁) ∧
       (((p.funcs f).di = none ∧ st' = st₁) ∨
        ∃ d, (p.funcs f).di = some d ∧
          ((d.singleton = some true ∧
             st' = { st₁ with instances := dinsert thing v st₁.instances }) ∨
           (d.singleton = some false ∧ st' = st₁)))) ∨
    (dlookup thing st.instances = none ∧ dlookup thing st.factories = none ∧
       ((∃ c, thing = Thing.cls c ∧ callClassInit p n st c = Except.ok (v, st')) ∨
        (∃ f, thing = Thing.func f ∧ callFunc p n st f = Except.ok (v, st')))) := by
  simp only [get] at h
  cases hI : dlookup thing st.instances with
  | some w =>
    rw [hI] at h
    dsimp only at h
    obtain ⟨h1, h2⟩ := Prod.mk.injEq .. ▸ Except.ok.inj h
    exact Or.inl ⟨by rw [h1], h2.symm⟩
  | none =>
    rw [hI] at h
    dsimp only at h
    cases hF : dlookup thing st.factories with
    | some f =>
      rw [hF] at h
      dsimp only at h
      cases hg : get p n st (Thing.func f) with
      | error e => rw [hg] at h; cases h
      | ok pr =>
        obtain ⟨ret, st₁⟩ := pr
        rw [hg] at h
        dsimp only at h
        split at h
        · next hdi =>
          obtain ⟨h1, h2⟩ := Prod.mk.injEq .. ▸ Except.ok.inj h
          exact Or.inr (Or.inl ⟨rfl, f, st₁, rfl, h1 ▸ hg, Or.inl ⟨hdi, h2.symm⟩⟩)
        · next d hdi =>
          split at h
          · cases h
          · next b hsing =>
            cases b with
            | true =>
              rw [if_pos rfl] at h
              obtain ⟨h1, h2⟩ := Prod.mk.injEq .. ▸ Except.ok.inj h
              subst h1
              exact Or.inr (Or.inl ⟨rfl, f, st₁, rfl, hg,
                Or.inr ⟨d, hdi, Or.inl ⟨hsing, h2.symm⟩⟩⟩)
            | false =>
              rw [if_neg (by simp)] at h
              obtain ⟨h1, h2⟩ := Prod.mk.injEq .. ▸ Except.ok.inj h
              exact Or.inr (Or.inl ⟨rfl, f, st₁, rfl, h1 ▸ hg,
                Or.inr ⟨d, hdi, Or.inr ⟨hsing, h2.symm⟩⟩⟩)
    | none =>
      rw [hF] at h
      dsimp only at h
      cases thing with
      | cls c => exact Or.inr (Or.inr ⟨rfl, rfl, Or.inl ⟨c, rfl, h⟩⟩)
      | func f => exact Or.inr (Or.inr ⟨rfl, rfl, Or.inr ⟨f, rfl, h⟩⟩)

/-! Well-formed-state machinery. -/

theorem properFacts_lookup {p : Prog} {l : List (Thing × Nat)} {k : Thing} {g : Nat}
    (hp : properFacts p l = true) (hl : dlookup k l = some g) :
    ∃ t d, k = Thing.cls t ∧ (p.funcs g).di = some d ∧ d.provides = some t := by
  have hx := List.all_eq_true.mp hp (k, g) (dlookup_mem hl)
  dsimp only at hx
  cases k with
  | cls t =>
    cases hdi : (p.funcs g).di with
    | none => rw [hdi] at hx; simp at hx
    | some d =>
      rw [hdi] at hx
      exact ⟨t, d, rfl, rfl, by simpa using hx⟩
  | func g' => simp at hx

theorem properFacts_lookup_func {p : Prog} {l : List (Thing × Nat)} {f : Nat}
    (hp : properFacts p l = true) : dlookup (Thing.func f) l = none := by
  cases h : dlookup (Thing.func f) l with
  | none => rfl
  | some g =>
    obtain ⟨t, d, hk, _, _⟩ := properFacts_lookup hp h
    cases hk

theorem properInsts_lookup_func {l : List (Thing × Value)} {f : Nat}
    (hp : properInsts l = true) : dlookup (Thing.func f) l = none := by
  cases h : dlookup (Thing.func f) l with
  | none => rfl
  | some v =>
    have hx := List.all_eq_true.mp hp _ (dlookup_mem h)
    cases hx

theorem all_dinsert {α β : Type} [DecidableEq α] (q : α × β → Bool) (k : α) (v : β) :
    ∀ l : List (α × β), l.all q = true → q (k, v) = true → ((dinsert k v l).all q) = true := by
  intro l
  induction l with
  | nil => intro _ hq; simpa [dinsert] using hq
  | cons kv rest ih =>
    obtain ⟨k', v'⟩ := kv
    intro hl hq
    rw [List.all_cons, Bool.and_eq_true] at hl
    by_cases h : k = k'
    · subst h
      simp [dinsert, List.all_cons, hq, hl.2]
    · simp [dinsert, h, List.all_cons, hl.1, ih hl.2 hq]

theorem stInv_refl (p : Prog) (st : St) : StInv p st st :=
  ⟨rfl, fun _ h => h, fun h => h⟩

theorem stInv_trans {p : Prog} {s₁ s₂ s₃ : St}
    (h₁ : StInv p s₁ s₂) (h₂ : StInv p s₂ s₃) : StInv p s₁ s₃ :=
  ⟨h₂.1.trans h₁.1, fun k hk => h₂.2.1 k (h₁.2.1 k hk), fun hp => h₂.2.2 (h₁.2.2 hp)⟩

theorem stInv_of_same {p : Prog} {st st' : St}
    (hf : st'.factories = st.factories) (hi : st'.instances = st.instances) :
    StInv p st st' := by
  refine ⟨hf, fun k hk => by rw [hi]; exact hk, fun hp => ?_⟩
  unfold properSt at hp ⊢
  rw [hf, hi]
  exact hp

/-- The state written by the singleton-caching step of `get`: inserting
the resolved value under the factory key preserves the invariant, because
a well-formed registry only has type-shaped keys. -/
theorem stInv_cache {p : Prog} {st : St} {k : Thing} {v : Value}
    (hk : (dlookup k st.factories).isSome) :
    StInv p st { st with instances := dinsert k v st.instances } := by
  refine ⟨rfl, fun j hj => dlookup_dinsert_isSome j k v _ hj, fun hp => ?_⟩
  unfold properSt at hp ⊢
  rw [Bool.and_eq_true] at hp ⊢
  refine ⟨hp.1, ?_⟩
  obtain ⟨g, hg⟩ := Option.isSome_iff_exists.mp hk
  obtain ⟨t, d, hkt, _, _⟩ := properFacts_lookup hp.1 hg
  exact all_dinsert _ _ _ _ hp.2 (by rw [hkt])

/-- Every successful embedded resolution step satisfies `StInv`: it never
touches the factory registry, never evicts a cached instance, and keeps
the state well-formed. -/
theorem runInv (p : Prog) : ∀ fuel : Nat,
    (∀ st thing v st', get p fuel st thing = Except.ok (v, st') → StInv p st st') ∧
    (∀ st c v st', callClassInit p fuel st c = Except.ok (v, st') → StInv p st st') ∧
    (∀ st g v st', callFunc p fuel st g = Except.ok (v, st') → StInv p st st') ∧
    (∀ st hs kw st', guessKwargs p fuel st hs = Except.ok (kw, st') → StInv p st st') ∧
    (∀ st o inj v st', injectProps p fuel st o inj = Except.ok (v, st') → StInv p st st') := by
  intro fuel
  induction fuel with
  | zero =>
    refine ⟨fun st thing v st' h => ?_, fun st c v st' h => ?_, fun st g v st' h => ?_,
      fun st hs kw st' h => ?_, fun st o inj v st' h => ?_⟩ <;> cases h
  | succ n ih =>
    obtain ⟨ihget, ihcci, ihcf, ihgk, ihip⟩ := ih
    refine ⟨?_, ?_, ?_, ?_, ?_⟩
    · intro st thing v st' h
      rcases get_ok h with ⟨_, rfl⟩ | ⟨hI, f, st₁, hF, hg, hrest⟩ | ⟨hI, hF, hcall⟩
      · exact stInv_refl _ _
      · have inv₁ := ihget _ _ _ _ hg
        rcases hrest with ⟨_, rfl⟩ | ⟨d, hdi, ⟨_, rfl⟩ | ⟨_, rfl⟩⟩
        · exact inv₁
        · refine stInv_trans inv₁ (stInv_cache ?_)
          rw [inv₁.1, hF]
          rfl
        · exact inv₁
      · rcases hcall with ⟨c, rfl, hc⟩ | ⟨f, rfl, hc⟩
        · exact ihcci _ _ _ _ hc
        · exact ihcf _ _ _ _ hc
    · intro st c v st' h
      obtain ⟨o, st₁, hcons, hpost⟩ := callClassInit_ok h
      have inv₁ : StInv p st st₁ := by
        rcases hcons with ⟨_, _, rfl⟩ | ⟨_, kw, stk, hkw, _, rfl⟩
        · exact stInv_of_same rfl rfl
        · exact stInv_trans (ihgk _ _ _ _ hkw) (stInv_of_same rfl rfl)
      rcases hpost with ⟨_, _, rfl⟩ | ⟨d, inj, hdi, hinj, hip⟩
      · exact inv₁
      · exact stInv_trans inv₁ (ihip _ _ _ _ _ hip)
    · intro st g v st' h
      obtain ⟨kw, st₁, hkw, _, rfl⟩ := callFunc_ok h
      exact stInv_trans (ihgk _ _ _ _ hkw) (stInv_of_same rfl rfl)
    · intro st hs kw st' h
      cases hs with
      | nil => obtain ⟨_, rfl⟩ := guessKwargs_nil_ok h; exact stInv_refl _ _
      | cons nt rest =>
        obtain ⟨nm, t⟩ := nt
        rcases guessKwargs_cons_ok h with ⟨_, hrest⟩ | ⟨_, v₁, s₁, kw₂, hget, hrest, _⟩
        · exact ihgk _ _ _ _ hrest
        · exact stInv_trans (ihget _ _ _ _ hget) (ihgk _ _ _ _ hrest)
    · intro st o inj v st' h
      cases inj with
      | nil => obtain ⟨_, rfl⟩ := injectProps_nil_ok h; exact stInv_refl _ _
      | cons nt rest =>
        obtain ⟨nm, t⟩ := nt
        obtain ⟨w, s₁, hget, hrec⟩ := injectProps_cons_ok h
        exact stInv_trans (ihget _ _ _ _ hget) (ihip _ _ _ _ _ hrec)

theorem properSt_facts {p : Prog} {st : St} (h : properSt p st = true) :
    properFacts p st.factories = true := by
  unfold properSt at h
  rw [Bool.and_eq_true] at h
  exact h.1

theorem properSt_insts {p : Prog} {st : St} (h : properSt p st = true) :
    properInsts st.instances = true := by
  unfold properSt at h
  rw [Bool.and_eq_true] at h
  exact h.2

theorem uncached_back {p : Prog} {s₁ s₂ : St} {k : Thing} (hinv : StInv p s₁ s₂)
    (h : dlookup k s₂.instances = none) : dlookup k s₁.instances = none := by
  cases hx : dlookup k s₁.instances with
  | none => rfl
  | some w =>
    have hs := hinv.2.1 k (by rw [hx]; rfl)
    rw [h] at hs
    cases hs

/-- In a well-formed state, as long as a resolution run ends with type
`T` still uncached, the singleton provider `f` registered for `T` was
never invoked during it: the invocation log's count of `f` is unchanged.
(`f` can only be reached through the factory entry keyed by `T`, and any
completed resolution through that entry caches its result under `T`.) -/
theorem countInv (p : Prog) (f T : Nat) (d : DiDict)
    (hdi : (p.funcs f).di = some d) (hprov : d.provides = some T)
    (hsing : d.singleton = some true) : ∀ fuel : Nat,
    (∀ st c v st', properSt p st = true →
       get p fuel st (Thing.cls c) = Except.ok (v, st') →
       dlookup (Thing.cls T) st'.instances = none →
       st'.log.count f = st.log.count f) ∧
    (∀ st g v st', g ≠ f → properSt p st = true →
       get p fuel st (Thing.func g) = Except.ok (v, st') →
       dlookup (Thing.cls T) st'.instances = none →
       st'.log.count f = st.log.count f) ∧
    (∀ st c v st', properSt p st = true →
       callClassInit p fuel st c = Except.ok (v, st') →
       dlookup (Thing.cls T) st'.instances = none →
       st'.log.count f = st.log.count f) ∧
    (∀ st g v st', g ≠ f → properSt p st = true →
       callFunc p fuel st g = Except.ok (v, st') →
       dlookup (Thing.cls T) st'.instances = none →
       st'.log.count f = st.log.count f) ∧
    (∀ st hs kw st', properSt p st = true →
       guessKwargs p fuel st hs = Except.ok (kw, st') →
       dlookup (Thing.cls T) st'.instances = none →
       st'.log.count f = st.log.count f) ∧
    (∀ st o inj v st', properSt p st = true →
       injectProps p fuel st o inj = Except.ok (v, st') →
       dlookup (Thing.cls T) st'.instances = none →
       st'.log.count f = st.log.count f) := by
  intro fuel
  induction fuel with
  | zero =>
    refine ⟨fun st c v st' _ h => ?_, fun st g v st' _ _ h => ?_, fun st c v st' _ h => ?_,
      fun st g v st' _ _ h => ?_, fun st hs kw st' _ h => ?_,
      fun st o inj v st' _ h => ?_⟩ <;> cases h
  | succ n ih =>
    obtain ⟨ihc, ihfne, ihcci, ihcfne, ihgk, ihip⟩ := ih
    refine ⟨?_, ?_, ?_, ?_, ?_, ?_⟩
    · -- get on a class thing
      intro st c v st' hP h hU
      rcases get_ok h with ⟨_, rfl⟩ | ⟨hI, g, st₁, hF, hg, hrest⟩ | ⟨hI, hF, hcall⟩
      · rfl
      · by_cases hgf : g = f
        · obtain ⟨t, d', hkt, hdi', hprov'⟩ := properFacts_lookup (properSt_facts hP) hF
          rw [hgf, hdi] at hdi'
          obtain rfl : d = d' := Option.some.inj hdi'
          have hcT : c = T := by
            have hct : c = t := Thing.cls.inj hkt
            have htT : t = T := Option.some.inj (hprov'.symm.trans hprov)
            exact hct.trans htT
          subst hcT
          rcases hrest with ⟨hnone, _⟩ | ⟨d₂, hdi₂, ⟨_, rfl⟩ | ⟨hsf, _⟩⟩
          · rw [hgf, hdi] at hnone; cases hnone
          · dsimp only at hU
            rw [dlookup_dinsert_self] at hU
            cases hU
          · rw [hgf, hdi] at hdi₂
            obtain rfl : d = d₂ := Option.some.inj hdi₂
            rw [hsing] at hsf
            cases hsf
        · have hU₁ : dlookup (Thing.cls T) st₁.instances = none := by
            rcases hrest with ⟨_, rfl⟩ | ⟨d₂, _, ⟨_, rfl⟩ | ⟨_, rfl⟩⟩
            · exact hU
            · dsimp only at hU
              by_cases hct : Thing.cls T = Thing.cls c
              · rw [hct, dlookup_dinsert_self] at hU; cases hU
              · rwa [dlookup_dinsert_ne _ hct] at hU
            · exact hU
          have hcnt := ihfne st g v st₁ hgf hP hg hU₁
          rcases hrest with ⟨_, rfl⟩ | ⟨d₂, _, ⟨_, rfl⟩ | ⟨_, rfl⟩⟩
          · exact hcnt
          · exact hcnt
          · exact hcnt
      · rcases hcall with ⟨c', heq, hc⟩ | ⟨g, heq, hc⟩
        · obtain rfl : c = c' := Thing.cls.inj heq
          exact ihcci st c v st' hP hc hU
        · cases heq
    · -- get on a function thing, g not the singleton provider
      intro st g v st' hgf hP h hU
      rcases get_ok h with ⟨_, rfl⟩ | ⟨hI, g₂, st₁, hF, hg, hrest⟩ | ⟨hI, hF, hcall⟩
      · rfl
      · obtain ⟨t, d', hkt, _, _⟩ := properFacts_lookup (properSt_facts hP) hF
        cases hkt
      · rcases hcall with ⟨c, heq, hc⟩ | ⟨g₂, heq, hc⟩
        · cases heq
        · obtain rfl : g = g₂ := Thing.func.inj heq
          exact ihcfne st g v st' hgf hP hc hU
    · -- callClassInit
      intro st c v st' hP h hU
      obtain ⟨o, st₁, hcons, hpost⟩ := callClassInit_ok h
      have inv₁ : StInv p st st₁ := by
        rcases hcons with ⟨_, _, rfl⟩ | ⟨_, kw, stk, hkw, _, rfl⟩
        · exact stInv_of_same rfl rfl
        · exact stInv_trans ((runInv p n).2.2.2.1 _ _ _ _ hkw) (stInv_of_same rfl rfl)
      have hU₁ : dlookup (Thing.cls T) st₁.instances = none := by
        rcases hpost with ⟨_, _, rfl⟩ | ⟨d₂, inj, _, _, hip⟩
        · exact hU
        · exact uncached_back ((runInv p n).2.2.2.2 _ _ _ _ _ hip) hU
      have hcnt₁ : st₁.log.count f = st.log.count f := by
        rcases hcons with ⟨_, _, rfl⟩ | ⟨_, kw, stk, hkw, _, rfl⟩
        · rfl
        · exact ihgk st (p.classes c).initParams kw stk hP hkw hU₁
      rcases hpost with ⟨_, _, rfl⟩ | ⟨d₂, inj, _, _, hip⟩
      · exact hcnt₁
      · have hP₁ := inv₁.2.2 hP
        have hcnt₂ := ihip st₁ o inj v st' hP₁ hip hU
        exact hcnt₂.trans hcnt₁
    · -- callFunc, g not the singleton provider
      intro st g v st' hgf hP h hU
      obtain ⟨kw, st₁, hkw, _, rfl⟩ := callFunc_ok h
      have hcnt := ihgk st (p.funcs g).hints kw st₁ hP hkw hU
      show (st₁.log ++ [g]).count f = st.log.count f
      rw [List.count_append, hcnt]
      have : List.count f [g] = 0 := by
        simp [List.count_eq_zero]
        exact fun hc => hgf hc.symm
      omega
    · -- guessKwargs
      intro st hs kw st' hP h hU
      cases hs with
      | nil => obtain ⟨_, rfl⟩ := guessKwargs_nil_ok h; rfl
      | cons nt rest =>
        obtain ⟨nm, t⟩ := nt
        rcases guessKwargs_cons_ok h with ⟨_, hrest⟩ | ⟨_, v₁, s₁, kw₂, hget, hrest, _⟩
        · exact ihgk st rest kw st' hP hrest hU
        · have hU₁ : dlookup (Thing.cls T) s₁.instances = none :=
            uncached_back ((runInv p n).2.2.2.1 _ _ _ _ hrest) hU
          have hP₁ := ((runInv p n).1 _ _ _ _ hget).2.2 hP
          have h₁ := ihc st t v₁ s₁ hP hget hU₁
          have h₂ := ihgk s₁ rest kw₂ st' hP₁ hrest hU
          exact h₂.trans h₁
    · -- injectProps
      intro st o inj v st' hP h hU
      cases inj with
      | nil => obtain ⟨_, rfl⟩ := injectProps_nil_ok h; rfl
      | cons nt rest =>
        obtain ⟨nm, t⟩ := nt
        obtain ⟨w, s₁, hget, hrec⟩ := injectProps_cons_ok h
        have hU₁ : dlookup (Thing.cls T) s₁.instances = none :=
          uncached_back ((runInv p n).2.2.2.2 _ _ _ _ _ hrec) hU
        have hP₁ := ((runInv p n).1 _ _ _ _ hget).2.2 hP
        have h₁ := ihc st t w s₁ hP hget hU₁
        have h₂ := ihip s₁ (setattrV o nm w) rest v st' hP₁ hrec hU
        exact h₂.trans h₁

/-- One-step unfolding of `get` at positive fuel, for rewriting a single
call without touching nested recursive occurrences. -/
theorem get_unfold (p : Prog) (n : Nat) (st : St) (thing : Thing) :
    get p (n + 1) st thing =
      match dlookup thing st.instances with
      | some v => Except.ok (v, st)
      | none =>
        match dlookup thing st.factories with
        | some f =>
          match get p n st (Thing.func f) with
          | .error e => .error e
          | .ok (ret, st₁) =>
            match (p.funcs f).di with
            | none => .ok (ret, st₁)
            | some d =>
              match d.singleton with
              | none => .error .keyError
              | some b =>
                if b then .ok (ret, { st₁ with instances := dinsert thing ret st₁.instances })
                else .ok (ret, st₁)
        | none =>
          match thing with
          | .cls c => callClassInit p n st c
          | .func f => callFunc p n st f := rfl

/-- Claim C1: for a singleton provider `f` registered for type `T` in a
well-formed injector where `T` is not yet cached and the provider's
dependency resolution succeeds without itself caching `T` (no circular
self-dependency), the first `get(T)` returns the freshly produced value
with `T -> value` already in the instance cache of the returned state,
the provider function was invoked exactly once (its ghost-log count rose
by one, the rise happening on this first call), and every later `get(T)`
— in particular the second — returns the identical cached instance with
the state, hence also the log, completely unchanged (the provider does
not run again). -/
theorem claim_C1 (p : Prog) (fuel : Nat) (st : St) (T f : Nat) (d : DiDict)
    (kw : List (String × Value)) (stp : St)
    (hProper : properSt p st = true)
    (hFact : dlookup (Thing.cls T) st.factories = some f)
    (hDi : (p.funcs f).di = some d)
    (hSing : d.singleton = some true)
    (hUncached : dlookup (Thing.cls T) st.instances = none)
    (hParams : guessKwargs p fuel st (p.funcs f).hints = Except.ok (kw, stp))
    (hAcyc : dlookup (Thing.cls T) stp.instances = none) :
    ∃ v st',
      get p (fuel + 3) st (Thing.cls T) = Except.ok (v, st') ∧
      dlookup (Thing.cls T) st'.instances = some v ∧
      st'.log.count f = st.log.count f + 1 ∧
      ∀ fuel₂ : Nat, get p (fuel₂ + 1) st' (Thing.cls T) = Except.ok (v, st') := by
  have hProv : d.provides = some T := by
    obtain ⟨t, d', hkt, hdi', hprov'⟩ := properFacts_lookup (properSt_facts hProper) hFact
    rw [hDi] at hdi'
    obtain rfl : d = d' := Option.some.inj hdi'
    rw [hprov', Thing.cls.inj hkt]
  have hcf : callFunc p (fuel + 1) st f =
      Except.ok (Value.obj stp.nextId (p.funcs f).constructs kw,
        { stp with nextId := stp.nextId + 1, log := stp.log ++ [f] }) := by
    simp only [callFunc]
    rw [hParams]
  have hgf : get p (fuel + 2) st (Thing.func f) =
      Except.ok (Value.obj stp.nextId (p.funcs f).constructs kw,
        { stp with nextId := stp.nextId + 1, log := stp.log ++ [f] }) := by
    rw [get_unfold, properInsts_lookup_func (properSt_insts hProper),
      properFacts_lookup_func (properSt_facts hProper)]
    dsimp only
    exact hcf
  refine ⟨Value.obj stp.nextId (p.funcs f).constructs kw,
    { stp with
        nextId := stp.nextId + 1,
        log := stp.log ++ [f],
        instances := dinsert (Thing.cls T)
          (Value.obj stp.nextId (p.funcs f).constructs kw) stp.instances }, ?_, ?_, ?_, ?_⟩
  · show get p (fuel + 2 + 1) st (Thing.cls T) = _
    rw [get_unfold, hUncached]
    dsimp only
    rw [hFact]
    dsimp only
    rw [hgf]
    dsimp only
    rw [hDi]
    dsimp only
    rw [hSing]
    rfl
  · exact dlookup_dinsert_self _ _ _
  · have hcnt : stp.log.count f = st.log.count f :=
      (countInv p f T d hDi hProv hSing fuel).2.2.2.2.1 st (p.funcs f).hints kw stp
        hProper hParams hAcyc
    show (stp.log ++ [f]).count f = st.log.count f + 1
    rw [List.count_append, hcnt]
    simp
  · intro fuel₂
    rw [get_unfold]
    dsimp only
    rw [dlookup_dinsert_self]

/-- Witness for C1: in the scenario environment with the singleton
provider for type 0 registered, the first `get` of type 0 caches the
fresh instance, logs exactly one invocation, and every later `get`
returns the identical instance with the state unchanged. -/
theorem claim_C1_witness :
    ∃ v st',
      get abProg 5 { factories := [(Thing.cls 0, 0), (Thing.cls 1, 1)] } (Thing.cls 0) =
        Except.ok (v, st') ∧
      dlookup (Thing.cls 0) st'.instances = some v ∧
      st'.log.count 0 =
        ({ factories := [(Thing.cls 0, 0), (Thing.cls 1, 1)] } : St).log.count 0 + 1 ∧
      ∀ fuel₂ : Nat, get abProg (fuel₂ + 1) st' (Thing.cls 0) = Except.ok (v, st') :=
  claim_C1 abProg 2 { factories := [(Thing.cls 0, 0), (Thing.cls 1, 1)] } 0 0
    { provides := some 0, singleton := some true } []
    { factories := [(Thing.cls 0, 0), (Thing.cls 1, 1)] } rfl rfl rfl rfl rfl rfl rfl

end Allib
